import Mathlib

/-!
Shallow embedding of `src/ray/gcs/gcs_server/gcs_resource_report_poller.cc`.

The poller keeps, per tracked node, a shared `PullState` record; a registry
`nodes_` maps node ids to these records; a deque `to_pull_queue_` holds the
records awaiting dispatch; `inflight_pulls_` counts dispatched,
not-yet-completed RPCs.  All mutation happens under one mutex, so each
operation (HandleNodeAdded, HandleNodeRemoved, Tick/TryPullResourceReport,
and the completion callback of a RequestResourceReport RPC) is modelled as
one atomic step on the state below.

Shared `std::shared_ptr<PullState>` objects are modelled by natural-number
references into a store; `inflight` is the multiset of references whose RPC
callback has been issued but has not yet run (implicit in the program as the
set of pending lambdas); `sink` records the node ids whose report payload was
handed to `GcsResourceManager::UpdateFromResourceReport`.  Timestamps are
`Int` nanoseconds (`absl::GetCurrentTimeNanos`); `poll_period_ms_` is the
configured value of `gcs_resource_report_poll_period_ms`, in milliseconds,
exactly as the source mixes them.
-/

namespace RayPoller

/-- Per-peer pull state (`struct PullState`): node identity, timestamp of the
most recent pull (`-1` sentinel before any pull) and the time the next pull
is due.  The RPC address is fixed at creation and plays no role in the
scheduling logic, so it is omitted. -/
structure PullState where
  node_id : Nat
  last_pull_time : Int
  next_pull_time : Int
deriving Repr, DecidableEq

/-- Association-list lookup, modelling hash-map access (`nodes_.count` /
operator lookup). -/
def lookupL {α : Type} (k : Nat) : List (Nat × α) → Option α
  | [] => none
  | (k2, v) :: t => if k = k2 then some v else lookupL k t

/-- Erase every binding of key `k` (`nodes_.erase(node_id)`; keys are unique
in the map, so at most one binding exists in practice). -/
def eraseL {α : Type} (k : Nat) : List (Nat × α) → List (Nat × α)
  | [] => []
  | (k2, v) :: t => if k = k2 then eraseL k t else (k2, v) :: eraseL k t

/-- Rewrite the value stored under key `k`, modelling in-place mutation of a
shared `PullState`. -/
def updateL {α : Type} (k : Nat) (v : α) : List (Nat × α) → List (Nat × α)
  | [] => []
  | (k2, v2) :: t =>
    if k2 = k then (k2, v) :: updateL k v t else (k2, v2) :: updateL k v t

/-- Keys of an association list. -/
def keysOf {α : Type} (l : List (Nat × α)) : List Nat :=
  l.map Prod.fst

/-- The poller state protected by `mutex_`, plus the environment bookkeeping
(`inflight` = outstanding RPC callbacks, `sink` = payloads delivered to the
resource manager, `nextRef` = allocator for fresh `PullState` objects). -/
structure Poller where
  max_concurrent_pulls : Nat
  poll_period_ms : Int
  inflight_pulls : Int
  nodes : List (Nat × Nat)
  store : List (Nat × PullState)
  to_pull_queue : List Nat
  inflight : List Nat
  sink : List Nat
  nextRef : Nat
deriving Repr, DecidableEq

/-- Dereference a `PullState` pointer. -/
def getState (s : Poller) (r : Nat) : PullState :=
  (lookupL r s.store).getD ⟨0, 0, 0⟩

/-- `GcsResourceReportPoller::HandleNodeAdded`.  `RAY_CHECK(!nodes_.count(node_id))`
aborts the process on a duplicate add; this is the `Except.error` branch.
Otherwise a fresh `PullState` is created with `last_pull_time = -1` and
`next_pull_time = now` (`absl::GetCurrentTimeNanos()`), registered in
`nodes_`, and pushed at the front of `to_pull_queue_`. -/
def handleNodeAdded (now : Int) (nodeId : Nat) (s : Poller) : Except String Poller :=
  if (lookupL nodeId s.nodes).isSome then
    Except.error "Node was added twice!"
  else
    Except.ok { s with
      nodes := (nodeId, s.nextRef) :: s.nodes,
      store := (s.nextRef, ⟨nodeId, -1, now⟩) :: s.store,
      to_pull_queue := s.nextRef :: s.to_pull_queue,
      nextRef := s.nextRef + 1 }

/-- `GcsResourceReportPoller::HandleNodeRemoved`: erases the registry entry
only; the queue and in-flight references are left to the dequeue-time and
completion-time checks. -/
def handleNodeRemoved (nodeId : Nat) (s : Poller) : Poller :=
  { s with nodes := eraseL nodeId s.nodes }

/-- `GcsResourceReportPoller::PullResourceReport`: increments
`inflight_pulls_` and issues the asynchronous `RequestResourceReport` RPC
(recorded by adding the reference to `inflight`). -/
def pullResourceReport (r : Nat) (s : Poller) : Poller :=
  { s with inflight_pulls := s.inflight_pulls + 1, inflight := r :: s.inflight }

/-- The while-loop of `GcsResourceReportPoller::TryPullResourceReport`,
recursing on the queue contents.  Faithful to the source, including the
comparison direction: the loop breaks when `cur_time > to_pull->next_pull_time`. -/
def tryPullLoop (now : Int) : List Nat → Poller → Poller
  | [], s => { s with to_pull_queue := [] }
  | r :: rest, s =>
    if s.inflight_pulls < (s.max_concurrent_pulls : Int) then
      if now > (getState s r).next_pull_time then
        { s with to_pull_queue := r :: rest }
      else if lookupL (getState s r).node_id s.nodes = none then
        tryPullLoop now rest s
      else
        tryPullLoop now rest (pullResourceReport r s)
    else
      { s with to_pull_queue := r :: rest }

/-- `GcsResourceReportPoller::TryPullResourceReport` (also the body of `Tick`). -/
def tryPullResourceReport (now : Int) (s : Poller) : Poller :=
  tryPullLoop now s.to_pull_queue s

/-- `GcsResourceReportPoller::NodeResourceReportReceived`: decrements
`inflight_pulls_`, drops the state if the node was removed meanwhile,
otherwise sets `next_pull_time = absl::GetCurrentTimeNanos() + poll_period_ms_`
(note: milliseconds added to a nanosecond clock, exactly as in the source;
`last_pull_time` is not touched) and re-enqueues the state at the back. -/
def nodeResourceReportReceived (now : Int) (r : Nat) (s : Poller) : Poller :=
  if lookupL (getState s r).node_id s.nodes = none then
    { s with inflight_pulls := s.inflight_pulls - 1 }
  else
    { s with
      inflight_pulls := s.inflight_pulls - 1,
      store := updateL r { getState s r with next_pull_time := now + s.poll_period_ms } s.store,
      to_pull_queue := s.to_pull_queue ++ [r] }

/-- Completion of the `RequestResourceReport` RPC for reference `r` (the
lambda in `PullResourceReport`).  On `status.ok()` the payload is first
forwarded to `GcsResourceManager::UpdateFromResourceReport` and then
`NodeResourceReportReceived` is posted; on failure the callback only logs,
so `NodeResourceReportReceived` never runs for this pull. -/
def rpcCompleted (now : Int) (r : Nat) (ok : Bool) (s : Poller) : Poller :=
  let s0 := { s with inflight := s.inflight.erase r }
  if ok then
    nodeResourceReportReceived now r
      { s0 with sink := s0.sink ++ [(getState s0 r).node_id] }
  else
    s0

/-- The events that drive the poller. -/
inductive Op where
  | add (now : Int) (nodeId : Nat)
  | remove (nodeId : Nat)
  | tick (now : Int)
  | complete (now : Int) (r : Nat) (ok : Bool)
deriving Repr, DecidableEq

/-- One atomic step.  A failing `RAY_CHECK` aborts the process, so no state
change is observable; a completion event can only fire for an outstanding
RPC. -/
def stepOp (s : Poller) : Op → Poller
  | Op.add now n =>
    match handleNodeAdded now n s with
    | Except.ok s2 => s2
    | Except.error _ => s
  | Op.remove n => handleNodeRemoved n s
  | Op.tick now => tryPullResourceReport now s
  | Op.complete now r ok => if r ∈ s.inflight then rpcCompleted now r ok s else s

/-- Run a sequence of events. -/
def run (s : Poller) : List Op → Poller
  | [] => s
  | op :: ops => run (stepOp s op) ops

/-- The freshly constructed poller. -/
def init (maxC : Nat) (period : Int) : Poller :=
  { max_concurrent_pulls := maxC, poll_period_ms := period, inflight_pulls := 0,
    nodes := [], store := [], to_pull_queue := [], inflight := [], sink := [],
    nextRef := 0 }

set_option maxRecDepth 4000

/-! ### Basic lemmas about the association-list operations -/

theorem lookupL_cons {α : Type} (k k2 : Nat) (v : α) (l : List (Nat × α)) :
    lookupL k ((k2, v) :: l) = if k = k2 then some v else lookupL k l := rfl

theorem lookupL_eq_none_iff {α : Type} (k : Nat) :
    ∀ l : List (Nat × α), lookupL k l = none ↔ k ∉ keysOf l := by
  intro l
  induction l with
  | nil => simp [lookupL, keysOf]
  | cons p t ih =>
    obtain ⟨k2, v⟩ := p
    by_cases h : k = k2
    · subst h; simp [lookupL, keysOf]
    · simp [lookupL, keysOf, h, ih]

theorem keysOf_eraseL_sublist {α : Type} (k : Nat) :
    ∀ l : List (Nat × α), (keysOf (eraseL k l)).Sublist (keysOf l) := by
  intro l
  induction l with
  | nil => simp [eraseL, keysOf]
  | cons p t ih =>
    obtain ⟨k2, v⟩ := p
    by_cases h : k = k2
    · simpa [eraseL, keysOf, h] using List.Sublist.cons k2 ih
    · simpa [eraseL, keysOf, h] using List.Sublist.cons₂ k2 ih

theorem lookupL_eraseL_self {α : Type} (k : Nat) :
    ∀ l : List (Nat × α), lookupL k (eraseL k l) = none := by
  intro l
  induction l with
  | nil => simp [eraseL, lookupL]
  | cons p t ih =>
    obtain ⟨k2, v⟩ := p
    by_cases h : k = k2
    · simpa [eraseL, h] using ih
    · simpa [eraseL, lookupL, h] using ih

theorem lookupL_updateL_self {α : Type} (k : Nat) (v : α) :
    ∀ l : List (Nat × α), lookupL k (updateL k v l) = (lookupL k l).map (fun _ => v) := by
  intro l
  induction l with
  | nil => rfl
  | cons p t ih =>
    obtain ⟨k2, v2⟩ := p
    by_cases h : k2 = k
    · subst h
      simp [updateL, lookupL, ih]
    · have h2 : ¬ k = k2 := fun hh => h hh.symm
      simp [updateL, lookupL, h, h2, ih]

/-! ### Unfolding equations and frame lemmas for the scheduler loop -/

theorem tryPullLoop_nil (now : Int) (s : Poller) :
    tryPullLoop now [] s = { s with to_pull_queue := [] } := rfl

theorem tryPullLoop_cons (now : Int) (r : Nat) (rest : List Nat) (s : Poller) :
    tryPullLoop now (r :: rest) s =
    if s.inflight_pulls < (s.max_concurrent_pulls : Int) then
      if now > (getState s r).next_pull_time then
        { s with to_pull_queue := r :: rest }
      else if lookupL (getState s r).node_id s.nodes = none then
        tryPullLoop now rest s
      else
        tryPullLoop now rest (pullResourceReport r s)
    else
      { s with to_pull_queue := r :: rest } := rfl

theorem tryPullLoop_frame (now : Int) :
    ∀ (q : List Nat) (s : Poller),
      (tryPullLoop now q s).max_concurrent_pulls = s.max_concurrent_pulls ∧
      (tryPullLoop now q s).poll_period_ms = s.poll_period_ms ∧
      (tryPullLoop now q s).nodes = s.nodes ∧
      (tryPullLoop now q s).store = s.store ∧
      (tryPullLoop now q s).sink = s.sink ∧
      (tryPullLoop now q s).nextRef = s.nextRef := by
  intro q
  induction q with
  | nil => intro s; rw [tryPullLoop_nil]; exact ⟨rfl, rfl, rfl, rfl, rfl, rfl⟩
  | cons r rest ih =>
    intro s
    rw [tryPullLoop_cons]
    split
    · split
      · exact ⟨rfl, rfl, rfl, rfl, rfl, rfl⟩
      · split
        · exact ih s
        · simpa [pullResourceReport] using ih (pullResourceReport r s)
    · exact ⟨rfl, rfl, rfl, rfl, rfl, rfl⟩

theorem tryPullLoop_queue_sub (now : Int) :
    ∀ (q : List Nat) (s : Poller) (x : Nat),
      x ∈ (tryPullLoop now q s).to_pull_queue → x ∈ q := by
  intro q
  induction q with
  | nil => intro s x hx; rw [tryPullLoop_nil] at hx; simp at hx
  | cons r rest ih =>
    intro s x hx
    rw [tryPullLoop_cons] at hx
    split at hx
    · split at hx
      · simpa using hx
      · split at hx
        · exact List.mem_cons_of_mem _ (ih s x hx)
        · exact List.mem_cons_of_mem _ (ih (pullResourceReport r s) x hx)
    · simpa using hx

theorem tryPullLoop_flight_sub (now : Int) :
    ∀ (q : List Nat) (s : Poller) (x : Nat),
      x ∈ (tryPullLoop now q s).inflight → x ∈ s.inflight ∨ x ∈ q := by
  intro q
  induction q with
  | nil => intro s x hx; rw [tryPullLoop_nil] at hx; exact Or.inl hx
  | cons r rest ih =>
    intro s x hx
    rw [tryPullLoop_cons] at hx
    split at hx
    · split at hx
      · exact Or.inl hx
      · split at hx
        · rcases ih s x hx with h | h
          · exact Or.inl h
          · exact Or.inr (List.mem_cons_of_mem _ h)
        · rcases ih (pullResourceReport r s) x hx with h | h
          · simp only [pullResourceReport, List.mem_cons] at h
            rcases h with h | h
            · exact Or.inr (by simp [h])
            · exact Or.inl h
          · exact Or.inr (List.mem_cons_of_mem _ h)
    · exact Or.inl hx

theorem lookupL_updateL_isSome {α : Type} (x k : Nat) (v : α) :
    ∀ l : List (Nat × α), (lookupL x (updateL k v l)).isSome = (lookupL x l).isSome := by
  intro l
  induction l with
  | nil => rfl
  | cons p t ih =>
    obtain ⟨k2, v2⟩ := p
    by_cases h : k2 = k
    · subst h
      by_cases h2 : x = k2 <;> simp [updateL, lookupL, h2, ih]
    · by_cases h2 : x = k2 <;> simp [updateL, lookupL, h, h2, ih]

theorem getState_updateL_self (s : Poller) (r : Nat) (v : PullState)
    (h : (lookupL r s.store).isSome = true) :
    ∀ x : Poller, x.store = updateL r v s.store → getState x r = v := by
  intro x hx
  unfold getState
  rw [hx, lookupL_updateL_self]
  cases hlk : lookupL r s.store with
  | none => rw [hlk] at h; simp at h
  | some w => simp [hlk]

/-! ### Unfolding equations for the atomic steps -/

theorem stepOp_add_dup (s : Poller) (now : Int) (n : Nat)
    (h : (lookupL n s.nodes).isSome = true) : stepOp s (Op.add now n) = s := by
  simp [stepOp, handleNodeAdded, h]

theorem stepOp_add_new (s : Poller) (now : Int) (n : Nat)
    (h : lookupL n s.nodes = none) :
    stepOp s (Op.add now n) = { s with
      nodes := (n, s.nextRef) :: s.nodes,
      store := (s.nextRef, ⟨n, -1, now⟩) :: s.store,
      to_pull_queue := s.nextRef :: s.to_pull_queue,
      nextRef := s.nextRef + 1 } := by
  simp [stepOp, handleNodeAdded, h]

theorem stepOp_remove (s : Poller) (n : Nat) :
    stepOp s (Op.remove n) = handleNodeRemoved n s := rfl

theorem stepOp_tick (s : Poller) (now : Int) :
    stepOp s (Op.tick now) = tryPullResourceReport now s := rfl

theorem stepOp_complete_mem (s : Poller) (now : Int) (r : Nat) (ok : Bool)
    (h : r ∈ s.inflight) : stepOp s (Op.complete now r ok) = rpcCompleted now r ok s := by
  simp [stepOp, h]

theorem stepOp_complete_not_mem (s : Poller) (now : Int) (r : Nat) (ok : Bool)
    (h : r ∉ s.inflight) : stepOp s (Op.complete now r ok) = s := by
  simp [stepOp, h]

theorem rpcCompleted_fail (now : Int) (r : Nat) (s : Poller) :
    rpcCompleted now r false s = { s with inflight := s.inflight.erase r } := rfl

theorem rpcCompleted_ok (now : Int) (r : Nat) (s : Poller) :
    rpcCompleted now r true s =
      nodeResourceReportReceived now r
        { s with inflight := s.inflight.erase r,
                 sink := s.sink ++ [(getState s r).node_id] } := rfl

theorem nodeResourceReportReceived_absent (now : Int) (r : Nat) (s : Poller)
    (h : lookupL (getState s r).node_id s.nodes = none) :
    nodeResourceReportReceived now r s = { s with inflight_pulls := s.inflight_pulls - 1 } := by
  unfold nodeResourceReportReceived
  rw [if_pos h]

theorem nodeResourceReportReceived_present (now : Int) (r : Nat) (s : Poller)
    (h : (lookupL (getState s r).node_id s.nodes).isSome = true) :
    nodeResourceReportReceived now r s =
      { s with
        inflight_pulls := s.inflight_pulls - 1,
        store := updateL r { getState s r with next_pull_time := now + s.poll_period_ms } s.store,
        to_pull_queue := s.to_pull_queue ++ [r] } := by
  have h2 : ¬ lookupL (getState s r).node_id s.nodes = none := by
    intro hn; rw [hn] at h; simp at h
  unfold nodeResourceReportReceived
  rw [if_neg h2]

/-! ### The state invariant -/

/-- Invariant maintained by every poller operation: the in-flight counter
dominates the number of outstanding RPCs and never exceeds
`max_concurrent_pulls`; no reference is duplicated within the queue, within
the outstanding RPCs, or across the two; all references are allocated and
backed by the store; registry keys are unique. -/
def Inv (s : Poller) : Prop :=
  ((s.inflight.length : Int) ≤ s.inflight_pulls) ∧
  (s.inflight_pulls ≤ (s.max_concurrent_pulls : Int)) ∧
  s.inflight.Nodup ∧
  s.to_pull_queue.Nodup ∧
  (∀ r ∈ s.to_pull_queue, r ∉ s.inflight) ∧
  (∀ r ∈ s.to_pull_queue, r < s.nextRef) ∧
  (∀ r ∈ s.inflight, r < s.nextRef) ∧
  (keysOf s.nodes).Nodup ∧
  (∀ r ∈ s.to_pull_queue, (lookupL r s.store).isSome = true) ∧
  (∀ r ∈ s.inflight, (lookupL r s.store).isSome = true)

instance (s : Poller) : Decidable (Inv s) := by
  unfold Inv; infer_instance

theorem tryPullLoop_inv (now : Int) :
    ∀ (q : List Nat) (s : Poller),
      ((s.inflight.length : Int) ≤ s.inflight_pulls) →
      (s.inflight_pulls ≤ (s.max_concurrent_pulls : Int)) →
      s.inflight.Nodup →
      q.Nodup →
      (∀ r ∈ q, r ∉ s.inflight) →
      (((tryPullLoop now q s).inflight.length : Int) ≤ (tryPullLoop now q s).inflight_pulls ∧
       (tryPullLoop now q s).inflight_pulls ≤ (s.max_concurrent_pulls : Int) ∧
       (tryPullLoop now q s).inflight.Nodup ∧
       (tryPullLoop now q s).to_pull_queue.Nodup ∧
       (∀ r ∈ (tryPullLoop now q s).to_pull_queue, r ∉ (tryPullLoop now q s).inflight)) := by
  intro q
  induction q with
  | nil =>
    intro s h1 h2 h3 _ _
    rw [tryPullLoop_nil]
    exact ⟨h1, h2, h3, List.nodup_nil, by simp⟩
  | cons r rest ih =>
    intro s h1 h2 h3 h4 h5
    rw [tryPullLoop_cons]
    by_cases hcap : s.inflight_pulls < (s.max_concurrent_pulls : Int)
    · rw [if_pos hcap]
      by_cases hdue : now > (getState s r).next_pull_time
      · rw [if_pos hdue]
        exact ⟨h1, h2, h3, h4, h5⟩
      · rw [if_neg hdue]
        by_cases habs : lookupL (getState s r).node_id s.nodes = none
        · rw [if_pos habs]
          exact ih s h1 h2 h3 (List.nodup_cons.mp h4).2
            (fun x hx => h5 x (List.mem_cons_of_mem _ hx))
        · rw [if_neg habs]
          have hrni : r ∉ s.inflight := h5 r (List.mem_cons_self r rest)
          have hnd := List.nodup_cons.mp h4
          exact ih (pullResourceReport r s)
            (by simp only [pullResourceReport, List.length_cons]; push_cast; omega)
            (by simp only [pullResourceReport]; omega)
            (by simp only [pullResourceReport]; exact List.nodup_cons.mpr ⟨hrni, h3⟩)
            hnd.2
            (by
              intro x hx
              simp only [pullResourceReport, List.mem_cons, not_or]
              exact ⟨fun heq => hnd.1 (heq ▸ hx), h5 x (List.mem_cons_of_mem _ hx)⟩)
    · rw [if_neg hcap]
      exact ⟨h1, h2, h3, h4, h5⟩

theorem inv_stepOp (s : Poller) (op : Op) (h : Inv s) : Inv (stepOp s op) := by
  obtain ⟨h1, h2, h3, h4, h5, h6, h7, h8, h9, h10⟩ := h
  cases op with
  | add now n =>
    by_cases hdup : (lookupL n s.nodes).isSome = true
    · rw [stepOp_add_dup s now n hdup]
      exact ⟨h1, h2, h3, h4, h5, h6, h7, h8, h9, h10⟩
    · have hnone : lookupL n s.nodes = none := by
        cases hlk : lookupL n s.nodes with
        | none => rfl
        | some v => rw [hlk] at hdup; simp at hdup
      rw [stepOp_add_new s now n hnone]
      have hfreshq : s.nextRef ∉ s.to_pull_queue := fun hm => absurd (h6 _ hm) (lt_irrefl _)
      have hfreshf : s.nextRef ∉ s.inflight := fun hm => absurd (h7 _ hm) (lt_irrefl _)
      refine ⟨h1, h2, h3, List.nodup_cons.mpr ⟨hfreshq, h4⟩, ?_, ?_, ?_, ?_, ?_, ?_⟩
      · intro x hx
        rcases List.mem_cons.mp hx with hx | hx
        · subst hx; exact hfreshf
        · exact h5 x hx
      · intro x hx
        rcases List.mem_cons.mp hx with hx | hx
        · subst hx; exact Nat.lt_succ_self _
        · exact Nat.lt_succ_of_lt (h6 x hx)
      · intro x hx
        exact Nat.lt_succ_of_lt (h7 x hx)
      · have : n ∉ keysOf s.nodes := (lookupL_eq_none_iff n s.nodes).mp hnone
        simpa [keysOf] using List.nodup_cons.mpr ⟨this, h8⟩
      · intro x hx
        rcases List.mem_cons.mp hx with hx | hx
        · subst hx; simp [lookupL_cons]
        · rw [lookupL_cons]
          by_cases hx2 : x = s.nextRef
          · simp [hx2]
          · rw [if_neg hx2]; exact h9 x hx
      · intro x hx
        rw [lookupL_cons]
        by_cases hx2 : x = s.nextRef
        · simp [hx2]
        · rw [if_neg hx2]; exact h10 x hx
  | remove n =>
    rw [stepOp_remove]
    exact ⟨h1, h2, h3, h4, h5, h6, h7,
      List.Nodup.sublist (keysOf_eraseL_sublist n s.nodes) h8, h9, h10⟩
  | tick now =>
    rw [stepOp_tick]
    unfold tryPullResourceReport
    obtain ⟨c1, c2, c3, c4, c5⟩ := tryPullLoop_inv now s.to_pull_queue s h1 h2 h3 h4 h5
    obtain ⟨f1, f2, f3, f4, f5, f6⟩ := tryPullLoop_frame now s.to_pull_queue s
    refine ⟨c1, by rw [f1]; exact c2, c3, c4, c5, ?_, ?_, ?_, ?_, ?_⟩
    · intro x hx
      rw [f6]
      exact h6 x (tryPullLoop_queue_sub now s.to_pull_queue s x hx)
    · intro x hx
      rw [f6]
      rcases tryPullLoop_flight_sub now s.to_pull_queue s x hx with hm | hm
      · exact h7 x hm
      · exact h6 x hm
    · rw [f3]; exact h8
    · intro x hx
      rw [f4]
      exact h9 x (tryPullLoop_queue_sub now s.to_pull_queue s x hx)
    · intro x hx
      rw [f4]
      rcases tryPullLoop_flight_sub now s.to_pull_queue s x hx with hm | hm
      · exact h10 x hm
      · exact h9 x hm
  | complete now r ok =>
    by_cases hr : r ∈ s.inflight
    · rw [stepOp_complete_mem s now r ok hr]
      have hlen : (s.inflight.erase r).length = s.inflight.length - 1 :=
        List.length_erase_of_mem hr
      have hpos : 0 < s.inflight.length := List.length_pos_of_mem hr
      have herase_sub : ∀ x, x ∈ s.inflight.erase r → x ∈ s.inflight :=
        fun x hx => List.mem_of_mem_erase hx
      have herase_nodup : (s.inflight.erase r).Nodup := List.Nodup.erase r h3
      have hrqueue : r ∉ s.to_pull_queue := fun hm => absurd hr (h5 r hm)
      cases ok with
      | false =>
        rw [rpcCompleted_fail]
        refine ⟨?_, h2, herase_nodup, h4, ?_, h6, ?_, h8, h9, ?_⟩
        · simp only [hlen]; push_cast [Nat.cast_sub hpos]; omega
        · exact fun x hx => fun hm => h5 x hx (herase_sub x hm)
        · exact fun x hx => h7 x (herase_sub x hx)
        · exact fun x hx => h10 x (herase_sub x hx)
      | true =>
        rw [rpcCompleted_ok]
        set s0 : Poller :=
          { s with inflight := s.inflight.erase r,
                   sink := s.sink ++ [(getState s r).node_id] } with hs0
        by_cases habs : lookupL (getState s0 r).node_id s0.nodes = none
        · rw [nodeResourceReportReceived_absent now r s0 habs]
          refine ⟨?_, ?_, herase_nodup, h4, ?_, h6, ?_, h8, h9, ?_⟩
          · simp only [hs0, hlen]; push_cast [Nat.cast_sub hpos]; omega
          · simp only [hs0]; omega
          · exact fun x hx => fun hm => h5 x hx (herase_sub x hm)
          · exact fun x hx => h7 x (herase_sub x hx)
          · exact fun x hx => h10 x (herase_sub x hx)
        · have hsome : (lookupL (getState s0 r).node_id s0.nodes).isSome = true := by
            cases hlk : lookupL (getState s0 r).node_id s0.nodes with
            | none => exact absurd hlk habs
            | some v => rfl
          rw [nodeResourceReportReceived_present now r s0 hsome]
          have hrerase : r ∉ s.inflight.erase r := by
            intro hm
            exact absurd rfl ((List.Nodup.mem_erase_iff h3).mp hm).1
          refine ⟨?_, ?_, herase_nodup, ?_, ?_, ?_, ?_, h8, ?_, ?_⟩
          · simp only [hs0, hlen]; push_cast [Nat.cast_sub hpos]; omega
          · simp only [hs0]; omega
          · simp only [hs0, List.nodup_append]
            exact ⟨h4, List.nodup_singleton r, by
              intro x hx hx2
              rw [List.mem_singleton.mp hx2] at hx
              exact hrqueue hx⟩
          · intro x hx
            rcases List.mem_append.mp hx with hx | hx
            · exact fun hm => h5 x hx (herase_sub x hm)
            · rw [List.mem_singleton.mp hx]
              exact hrerase
          · intro x hx
            rcases List.mem_append.mp hx with hx | hx
            · exact h6 x hx
            · rw [List.mem_singleton.mp hx]
              exact h7 r hr
          · exact fun x hx => h7 x (herase_sub x hx)
          · intro x hx
            rw [lookupL_updateL_isSome]
            rcases List.mem_append.mp hx with hx | hx
            · exact h9 x hx
            · rw [List.mem_singleton.mp hx]
              exact h10 r hr
          · intro x hx
            rw [lookupL_updateL_isSome]
            exact h10 x (herase_sub x hx)
    · rw [stepOp_complete_not_mem s now r ok hr]
      exact ⟨h1, h2, h3, h4, h5, h6, h7, h8, h9, h10⟩

theorem inv_init (maxC : Nat) (period : Int) : Inv (init maxC period) := by
  refine ⟨?_, ?_, ?_, ?_, ?_, ?_, ?_, ?_, ?_, ?_⟩ <;> simp [init, keysOf]

theorem inv_run (ops : List Op) : ∀ s : Poller, Inv s → Inv (run s ops) := by
  induction ops with
  | nil => intro s h; exact h
  | cons op t ih => intro s h; exact ih _ (inv_stepOp s op h)

/-! ### A retired reference never re-enters the queue or the outstanding set -/

theorem nodeResourceReportReceived_frame (now : Int) (r : Nat) (s : Poller) :
    (nodeResourceReportReceived now r s).max_concurrent_pulls = s.max_concurrent_pulls ∧
    (nodeResourceReportReceived now r s).nextRef = s.nextRef := by
  unfold nodeResourceReportReceived
  split <;> exact ⟨rfl, rfl⟩

theorem stepOp_persist_out (s : Poller) (op : Op) (r : Nat)
    (hq : r ∉ s.to_pull_queue) (hf : r ∉ s.inflight) (hn : r < s.nextRef) :
    r ∉ (stepOp s op).to_pull_queue ∧ r ∉ (stepOp s op).inflight ∧
      r < (stepOp s op).nextRef := by
  cases op with
  | add now n =>
    by_cases hdup : (lookupL n s.nodes).isSome = true
    · rw [stepOp_add_dup s now n hdup]; exact ⟨hq, hf, hn⟩
    · rw [stepOp_add_new s now n (Option.not_isSome_iff_eq_none.mp hdup)]
      refine ⟨?_, hf, Nat.lt_succ_of_lt hn⟩
      intro hx
      rcases List.mem_cons.mp hx with hx | hx
      · exact absurd hx (Nat.ne_of_lt hn)
      · exact hq hx
  | remove n => rw [stepOp_remove]; exact ⟨hq, hf, hn⟩
  | tick now =>
    rw [stepOp_tick]
    unfold tryPullResourceReport
    obtain ⟨-, -, -, -, -, f6⟩ := tryPullLoop_frame now s.to_pull_queue s
    refine ⟨fun hx => hq (tryPullLoop_queue_sub now _ s r hx), ?_, by rw [f6]; exact hn⟩
    intro hx
    rcases tryPullLoop_flight_sub now _ s r hx with hm | hm
    · exact hf hm
    · exact hq hm
  | complete now r2 ok =>
    by_cases hr2 : r2 ∈ s.inflight
    · have hne : r ≠ r2 := fun heq => hf (heq ▸ hr2)
      rw [stepOp_complete_mem s now r2 ok hr2]
      cases ok with
      | false =>
        rw [rpcCompleted_fail]
        exact ⟨hq, fun hx => hf (List.mem_of_mem_erase hx), hn⟩
      | true =>
        rw [rpcCompleted_ok]
        set s0 : Poller :=
          { s with inflight := s.inflight.erase r2,
                   sink := s.sink ++ [(getState s r2).node_id] } with hs0
        have hf0 : r ∉ s0.inflight := fun hx => hf (List.mem_of_mem_erase hx)
        by_cases habs : lookupL (getState s0 r2).node_id s0.nodes = none
        · rw [nodeResourceReportReceived_absent now r2 s0 habs]
          exact ⟨hq, hf0, hn⟩
        · have hsome : (lookupL (getState s0 r2).node_id s0.nodes).isSome = true := by
            cases hlk : lookupL (getState s0 r2).node_id s0.nodes with
            | none => exact absurd hlk habs
            | some v => rfl
          rw [nodeResourceReportReceived_present now r2 s0 hsome]
          refine ⟨?_, hf0, hn⟩
          intro hx
          rcases List.mem_append.mp hx with hx | hx
          · exact hq hx
          · exact hne (List.mem_singleton.mp hx)
    · rw [stepOp_complete_not_mem s now r2 ok hr2]; exact ⟨hq, hf, hn⟩

theorem run_persist_out (ops : List Op) : ∀ (s : Poller) (r : Nat),
    r ∉ s.to_pull_queue → r ∉ s.inflight → r < s.nextRef →
    r ∉ (run s ops).to_pull_queue ∧ r ∉ (run s ops).inflight := by
  induction ops with
  | nil => intro s r hq hf _; exact ⟨hq, hf⟩
  | cons op t ih =>
    intro s r hq hf hn
    obtain ⟨a, b, c⟩ := stepOp_persist_out s op r hq hf hn
    exact ih _ r a b c

/-! ### The loop never dispatches a pull for an unregistered node -/

theorem tryPullLoop_no_dispatch_absent (now : Int) (n : Nat) :
    ∀ (q : List Nat) (s : Poller),
      lookupL n s.nodes = none →
      ∀ r ∈ (tryPullLoop now q s).inflight, (getState s r).node_id = n → r ∈ s.inflight := by
  intro q
  induction q with
  | nil =>
    intro s _ r hr _
    rw [tryPullLoop_nil] at hr
    exact hr
  | cons r2 rest ih =>
    intro s habs r hr hid
    rw [tryPullLoop_cons] at hr
    by_cases hcap : s.inflight_pulls < (s.max_concurrent_pulls : Int)
    · rw [if_pos hcap] at hr
      by_cases hdue : now > (getState s r2).next_pull_time
      · rw [if_pos hdue] at hr; exact hr
      · rw [if_neg hdue] at hr
        by_cases habs2 : lookupL (getState s r2).node_id s.nodes = none
        · rw [if_pos habs2] at hr
          exact ih s habs r hr hid
        · rw [if_neg habs2] at hr
          have hmem := ih (pullResourceReport r2 s) habs r hr hid
          simp only [pullResourceReport, List.mem_cons] at hmem
          rcases hmem with heq | hmem
          · subst heq
            rw [hid] at habs2
            exact absurd habs habs2
          · exact hmem
    · rw [if_neg hcap] at hr; exact hr

/-! ### Frame lemma for the configured admission limit -/

theorem stepOp_max (s : Poller) (op : Op) :
    (stepOp s op).max_concurrent_pulls = s.max_concurrent_pulls := by
  cases op with
  | add now n =>
    by_cases hdup : (lookupL n s.nodes).isSome = true
    · rw [stepOp_add_dup s now n hdup]
    · rw [stepOp_add_new s now n (Option.not_isSome_iff_eq_none.mp hdup)]
  | remove n => rfl
  | tick now => exact (tryPullLoop_frame now s.to_pull_queue s).1
  | complete now r ok =>
    by_cases hr : r ∈ s.inflight
    · rw [stepOp_complete_mem s now r ok hr]
      cases ok with
      | false => rfl
      | true =>
        rw [rpcCompleted_ok]
        exact (nodeResourceReportReceived_frame now r _).1
    · rw [stepOp_complete_not_mem s now r ok hr]

theorem run_max (ops : List Op) : ∀ s : Poller,
    (run s ops).max_concurrent_pulls = s.max_concurrent_pulls := by
  induction ops with
  | nil => intro s; rfl
  | cons op t ih => intro s; rw [run]; rw [ih (stepOp s op), stepOp_max]

/-! ### Lifecycle model: Start, Stop and the destructor

`polling_thread_` is a `std::unique_ptr<std::thread>`; it is null until
`Start()` allocates the background thread.  `Stop()` runs
`polling_service_.stop()` and then evaluates `polling_thread_->joinable()`:
when the pointer is null that dereference is the error branch (undefined
behaviour in the C++ source); otherwise the thread is joined when still
joinable.  The destructor `~GcsResourceReportPoller()` just calls `Stop()`. -/

structure ThreadHandle where
  joinable : Bool
deriving Repr, DecidableEq

structure PollerLifecycle where
  polling_thread : Option ThreadHandle
  service_stopped : Bool
deriving Repr, DecidableEq

/-- The lifecycle state of a freshly constructed poller: no thread yet. -/
def initLifecycle : PollerLifecycle :=
  { polling_thread := none, service_stopped := false }

/-- `Start()`: `polling_thread_.reset(new std::thread{...})`. -/
def start (s : PollerLifecycle) : PollerLifecycle :=
  { s with polling_thread := some { joinable := true } }

/-- `Stop()` as described above. -/
def stop (s : PollerLifecycle) : Except String PollerLifecycle :=
  match s.polling_thread with
  | none => Except.error "null dereference of polling_thread_"
  | some _ =>
    Except.ok { polling_thread := some { joinable := false }, service_stopped := true }

/-- `~GcsResourceReportPoller() { Stop(); }`. -/
def destruct (s : PollerLifecycle) : Except String PollerLifecycle :=
  stop s

/-! ### Claim theorems -/

/-- C1: the claim states that an overdue (or exactly due) front entry is
dequeued and dispatched while a not-yet-due front entry stops the loop.  The
source tests `cur_time > to_pull->next_pull_time` and breaks when it holds,
which is the opposite: with one registered node due at time 0, a tick at
time 1 (overdue) dispatches nothing and leaves the queue untouched, while
with the node due at time 5 a tick at time 0 (not yet due) dequeues and
dispatches it. -/
theorem c1_due_comparison_inverted :
    ((tryPullResourceReport 1 (run (init 2 100) [Op.add 0 7])).inflight = [] ∧
     (tryPullResourceReport 1 (run (init 2 100) [Op.add 0 7])).to_pull_queue = [0] ∧
     (tryPullResourceReport 1 (run (init 2 100) [Op.add 0 7])).inflight_pulls = 0) ∧
    ((tryPullResourceReport 0 (run (init 2 100) [Op.add 5 7])).inflight = [0] ∧
     (tryPullResourceReport 0 (run (init 2 100) [Op.add 5 7])).to_pull_queue = []) := by
  decide

/-- C2: the claim states that the in-flight counter is decremented exactly
once on completion of every dispatched pull, regardless of outcome.  In the
source, `NodeResourceReportReceived` (the only decrement) is posted only in
the `status.ok()` branch of the RPC callback: after a dispatch (counter 1)
whose RPC completes with failure, no RPC is outstanding any more, yet the
counter is still 1 and is never decremented. -/
theorem c2_failed_pull_never_releases_capacity :
    (run (init 2 100) [Op.add 0 7, Op.tick 0]).inflight_pulls = 1 ∧
    (run (init 2 100) [Op.add 0 7, Op.tick 0, Op.complete 0 0 false]).inflight_pulls = 1 ∧
    (run (init 2 100) [Op.add 0 7, Op.tick 0, Op.complete 0 0 false]).inflight = [] := by
  decide

/-- C3: the claim states `next_due_time := completion time + poll_period`
with both in the same unit.  The source adds `poll_period_ms_` (milliseconds,
here 100) to `absl::GetCurrentTimeNanos()` (nanoseconds): after a successful
pull completing at time 0 ns the stored due time is 100 (i.e. 100 ns, not
100 ms = 100000000 ns), and a tick 100 ns after completion re-dispatches the
peer — far earlier than `poll_period` after the previous completion. -/
theorem c3_poll_period_unit_mismatch :
    (getState (run (init 2 100) [Op.add 0 7, Op.tick 0, Op.complete 0 0 true]) 0).next_pull_time
        = 100 ∧
    (run (init 2 100) [Op.add 0 7, Op.tick 0, Op.complete 0 0 true, Op.tick 100]).inflight
        = [0] ∧
    (100 : Int) ≠ 100 * 1000000 := by
  decide

/-- C4: along every event sequence from the freshly constructed poller, the
in-flight counter stays within `0 ≤ inflight_pulls ≤ max_concurrent_pulls`:
it is incremented only under the loop guard `inflight_pulls < max` and
decremented only by the completion handler of a previously dispatched pull. -/
theorem c4_inflight_counter_bounded (maxC : Nat) (period : Int) (ops : List Op) :
    0 ≤ (run (init maxC period) ops).inflight_pulls ∧
    (run (init maxC period) ops).inflight_pulls ≤ (maxC : Int) := by
  obtain ⟨h1, h2, -⟩ := inv_run ops (init maxC period) (inv_init maxC period)
  refine ⟨le_trans (by positivity) h1, ?_⟩
  have hmax := run_max ops (init maxC period)
  rw [hmax] at h2
  exact h2

theorem c4_inflight_counter_bounded_witness :
    0 ≤ (run (init 2 100) [Op.add 0 7, Op.tick 0]).inflight_pulls ∧
    (run (init 2 100) [Op.add 0 7, Op.tick 0]).inflight_pulls ≤ ((2 : Nat) : Int) :=
  c4_inflight_counter_bounded 2 100 [Op.add 0 7, Op.tick 0]

/-- C5 (counterexample): the claim states at most one in-flight pull per
peer id, including across remove/re-add interleavings.  Trace: add node 7
(state 0), tick dispatches it, remove 7, re-add 7 (fresh state 1), tick
dispatches the fresh state while the first pull is still outstanding — two
concurrent in-flight pulls, both for peer id 7. -/
theorem c5_counterexample_two_pulls_same_peer :
    (run (init 2 100) [Op.add 0 7, Op.tick 0, Op.remove 7, Op.add 0 7, Op.tick 0]).inflight
        = [1, 0] ∧
    (getState (run (init 2 100) [Op.add 0 7, Op.tick 0, Op.remove 7, Op.add 0 7, Op.tick 0])
        0).node_id = 7 ∧
    (getState (run (init 2 100) [Op.add 0 7, Op.tick 0, Op.remove 7, Op.add 0 7, Op.tick 0])
        1).node_id = 7 := by
  decide

/-- C5 (amended): per `PullState` object, pulls are never concurrent — in
every reachable state the list of outstanding pulls contains each state
reference at most once; for a fixed peer id the guarantee holds only until
the peer is removed and re-added (with a fresh state) while a pull for the
old state is in flight, as the counterexample shows. -/
theorem c5_amended_no_concurrent_pulls_per_state (maxC : Nat) (period : Int) (ops : List Op) :
    (run (init maxC period) ops).inflight.Nodup :=
  (inv_run ops (init maxC period) (inv_init maxC period)).2.2.1

theorem c5_amended_no_concurrent_pulls_per_state_witness :
    (run (init 2 100)
      [Op.add 0 7, Op.tick 0, Op.remove 7, Op.add 0 7, Op.tick 0]).inflight.Nodup :=
  c5_amended_no_concurrent_pulls_per_state 2 100
    [Op.add 0 7, Op.tick 0, Op.remove 7, Op.add 0 7, Op.tick 0]

/-- C6 (counterexample): the claim states that the completion of a pull for
a peer already removed does not apply the report payload to the
resource-report sink.  In the source, `UpdateFromResourceReport` runs in the
RPC callback before the registry check in `NodeResourceReportReceived`:
after add 7, dispatch, remove 7, a successful completion delivers the
payload of node 7 to the sink even though the registry is empty. -/
theorem c6_counterexample_payload_applied_after_removal :
    (run (init 2 100) [Op.add 0 7, Op.tick 0, Op.remove 7]).sink = [] ∧
    (run (init 2 100) [Op.add 0 7, Op.tick 0, Op.remove 7, Op.complete 0 0 true]).sink = [7] ∧
    (run (init 2 100) [Op.add 0 7, Op.tick 0, Op.remove 7, Op.complete 0 0 true]).nodes = [] := by
  decide

/-- C6 (amended): for a peer removed from the registry before its in-flight
pull completes, the successful completion applies the report payload to the
sink (before the registry check), decrements the counter, and does not
re-insert the peer state into the pull queue — not at completion time nor
ever after: the retired state reference never re-enters the queue or the
outstanding set under any continuation of the run. -/
theorem c6_amended_removed_peer_not_reenqueued (s : Poller) (now : Int) (r : Nat)
    (ops : List Op) (hInv : Inv s) (hr : r ∈ s.inflight)
    (habs : lookupL (getState s r).node_id s.nodes = none) :
    (stepOp s (Op.complete now r true)).sink = s.sink ++ [(getState s r).node_id] ∧
    (stepOp s (Op.complete now r true)).to_pull_queue = s.to_pull_queue ∧
    (stepOp s (Op.complete now r true)).inflight_pulls = s.inflight_pulls - 1 ∧
    r ∉ (run (stepOp s (Op.complete now r true)) ops).to_pull_queue ∧
    r ∉ (run (stepOp s (Op.complete now r true)) ops).inflight := by
  obtain ⟨h1, h2, h3, h4, h5, h6, h7, h8, h9, h10⟩ := hInv
  rw [stepOp_complete_mem s now r true hr, rpcCompleted_ok]
  set s0 : Poller :=
    { s with inflight := s.inflight.erase r,
             sink := s.sink ++ [(getState s r).node_id] } with hs0
  have habs0 : lookupL (getState s0 r).node_id s0.nodes = none := habs
  rw [nodeResourceReportReceived_absent now r s0 habs0]
  have hrq : r ∉ s.to_pull_queue := fun hm => h5 r hm hr
  have hrerase : r ∉ s.inflight.erase r := by
    intro hm
    exact absurd rfl ((List.Nodup.mem_erase_iff h3).mp hm).1
  obtain ⟨pa, pb⟩ :=
    run_persist_out ops { s0 with inflight_pulls := s0.inflight_pulls - 1 } r
      hrq hrerase (h7 r hr)
  exact ⟨rfl, rfl, rfl, pa, pb⟩

theorem c6_amended_removed_peer_not_reenqueued_witness :
    0 ∉ (run (stepOp (run (init 2 100) [Op.add 0 7, Op.tick 0, Op.remove 7])
          (Op.complete 0 0 true)) [Op.add 1 7, Op.tick 1]).to_pull_queue :=
  (c6_amended_removed_peer_not_reenqueued
    (run (init 2 100) [Op.add 0 7, Op.tick 0, Op.remove 7]) 0 0 [Op.add 1 7, Op.tick 1]
    (by decide) (by decide) (by decide)).2.2.2.1

/-- C7: a dequeued front entry whose peer id is absent from the registry is
discarded and the loop continues on the rest of the queue with the state
unchanged — in particular `inflight_pulls` is not incremented for it; and
globally, the scheduler loop never dispatches a pull for a peer id that is
absent from the registry: any outstanding pull for such a peer id after a
tick was already outstanding before it. -/
theorem c7_unregistered_entry_discarded :
    (∀ (now : Int) (s : Poller) (r : Nat) (rest : List Nat),
      s.to_pull_queue = r :: rest →
      s.inflight_pulls < (s.max_concurrent_pulls : Int) →
      ¬ now > (getState s r).next_pull_time →
      lookupL (getState s r).node_id s.nodes = none →
      tryPullResourceReport now s = tryPullLoop now rest s) ∧
    (∀ (now : Int) (s : Poller) (n : Nat),
      lookupL n s.nodes = none →
      ∀ r ∈ (tryPullResourceReport now s).inflight,
        (getState s r).node_id = n → r ∈ s.inflight) := by
  constructor
  · intro now s r rest hq hcap hdue habs
    unfold tryPullResourceReport
    rw [hq, tryPullLoop_cons, if_pos hcap, if_neg hdue, if_pos habs]
  · intro now s n habs r hr hid
    exact tryPullLoop_no_dispatch_absent now n s.to_pull_queue s habs r hr hid

theorem c7_unregistered_entry_discarded_witness :
    tryPullResourceReport 0 (run (init 2 100) [Op.add 0 7, Op.remove 7]) =
      tryPullLoop 0 [] (run (init 2 100) [Op.add 0 7, Op.remove 7]) :=
  c7_unregistered_entry_discarded.1 0 (run (init 2 100) [Op.add 0 7, Op.remove 7]) 0 []
    (by decide) (by decide) (by decide) (by decide)

/-- C8: `HandleNodeAdded` fails loudly (the `RAY_CHECK` on a duplicate add)
exactly when the peer id is already registered; otherwise it creates a fresh
`PullState` with `last_pull_time = -1` and `next_pull_time = now`, registers
it, and pushes it at the front of the pull queue; add after remove of the
same id succeeds; and on every successful add the registry keys remain free
of duplicates. -/
theorem c8_add_semantics (now : Int) (n : Nat) (s : Poller) (hInv : Inv s) :
    ((handleNodeAdded now n s).isOk = false ↔ (lookupL n s.nodes).isSome = true) ∧
    (lookupL n s.nodes = none →
      handleNodeAdded now n s = Except.ok { s with
        nodes := (n, s.nextRef) :: s.nodes,
        store := (s.nextRef, ⟨n, -1, now⟩) :: s.store,
        to_pull_queue := s.nextRef :: s.to_pull_queue,
        nextRef := s.nextRef + 1 }) ∧
    ((handleNodeAdded now n (handleNodeRemoved n s)).isOk = true) ∧
    (∀ t : Poller, handleNodeAdded now n s = Except.ok t → (keysOf t.nodes).Nodup) := by
  obtain ⟨-, -, -, -, -, -, -, h8, -, -⟩ := hInv
  refine ⟨?_, ?_, ?_, ?_⟩
  · by_cases hdup : (lookupL n s.nodes).isSome = true
    · simp [handleNodeAdded, hdup, Except.isOk, Except.toBool]
    · simp [handleNodeAdded, Option.not_isSome_iff_eq_none.mp hdup, Except.isOk,
        Except.toBool]
  · intro hnone
    simp [handleNodeAdded, hnone]
  · simp [handleNodeAdded, handleNodeRemoved, lookupL_eraseL_self, Except.isOk,
      Except.toBool]
  · intro t ht
    by_cases hdup : (lookupL n s.nodes).isSome = true
    · simp [handleNodeAdded, hdup] at ht
    · have hnone := Option.not_isSome_iff_eq_none.mp hdup
      simp [handleNodeAdded, hnone] at ht
      have hkey : n ∉ keysOf s.nodes := (lookupL_eq_none_iff n s.nodes).mp hnone
      rw [← ht]
      simpa [keysOf] using List.nodup_cons.mpr ⟨hkey, h8⟩

theorem c8_add_semantics_witness :
    (handleNodeAdded 1 7 (run (init 2 100) [Op.add 0 7])).isOk = false :=
  (c8_add_semantics 1 7 (run (init 2 100) [Op.add 0 7]) (by decide)).1.mpr (by decide)

/-- C9 (counterexample): the claim states that after a successful pull of a
still-registered peer, `last_pull_time` is updated to the completion
timestamp and no longer holds the sentinel.  The source's
`NodeResourceReportReceived` never writes `last_pull_time`: after add at
time 0, dispatch, and successful completion at time 5, the field still holds
the `-1` sentinel (while the state was correctly re-queued at the back). -/
theorem c9_counterexample_last_pull_time_not_updated :
    (getState (run (init 2 100) [Op.add 0 7, Op.tick 0, Op.complete 5 0 true]) 0).last_pull_time
        = -1 ∧
    (run (init 2 100) [Op.add 0 7, Op.tick 0, Op.complete 5 0 true]).to_pull_queue = [0] := by
  decide

/-- C9 (amended): after every successful pull of a peer that is still
registered, the peer state is re-inserted at the back of the pull queue and
its `next_pull_time` is set to `now + poll_period_ms`, but `last_pull_time`
is left unchanged (it keeps the `-1` sentinel forever). -/
theorem c9_amended_requeue_back (now : Int) (r : Nat) (s : Poller)
    (hInv : Inv s) (hr : r ∈ s.inflight)
    (hpres : (lookupL (getState s r).node_id s.nodes).isSome = true) :
    (stepOp s (Op.complete now r true)).to_pull_queue = s.to_pull_queue ++ [r] ∧
    (getState (stepOp s (Op.complete now r true)) r).next_pull_time
        = now + s.poll_period_ms ∧
    (getState (stepOp s (Op.complete now r true)) r).last_pull_time
        = (getState s r).last_pull_time := by
  obtain ⟨-, -, -, -, -, -, -, -, -, h10⟩ := hInv
  rw [stepOp_complete_mem s now r true hr, rpcCompleted_ok]
  set s0 : Poller :=
    { s with inflight := s.inflight.erase r,
             sink := s.sink ++ [(getState s r).node_id] } with hs0
  have hpres0 : (lookupL (getState s0 r).node_id s0.nodes).isSome = true := hpres
  rw [nodeResourceReportReceived_present now r s0 hpres0]
  have hget :=
    getState_updateL_self s r
      { getState s r with next_pull_time := now + s.poll_period_ms } (h10 r hr)
      { s0 with
          inflight_pulls := s0.inflight_pulls - 1,
          store := updateL r
            { getState s0 r with next_pull_time := now + s0.poll_period_ms } s0.store,
          to_pull_queue := s0.to_pull_queue ++ [r] } rfl
  exact ⟨rfl, by rw [hget], by rw [hget]⟩

theorem c9_amended_requeue_back_witness :
    (stepOp (run (init 2 100) [Op.add 0 7, Op.tick 0]) (Op.complete 5 0 true)).to_pull_queue
        = (run (init 2 100) [Op.add 0 7, Op.tick 0]).to_pull_queue ++ [0] :=
  (c9_amended_requeue_back 5 0 (run (init 2 100) [Op.add 0 7, Op.tick 0])
    (by decide) (by decide) (by decide)).1

/-- C10: `Stop()` dereferences the null `polling_thread_` when `Start()` was
never called — also via the destructor of a never-started poller — while
after a `Start()`, a `Stop()` and a second `Stop()` both complete without
error. -/
theorem c10_stop_requires_start :
    stop initLifecycle = Except.error "null dereference of polling_thread_" ∧
    destruct initLifecycle = Except.error "null dereference of polling_thread_" ∧
    stop (start initLifecycle) =
      Except.ok { polling_thread := some { joinable := false }, service_stopped := true } ∧
    stop { polling_thread := some { joinable := false }, service_stopped := true } =
      Except.ok { polling_thread := some { joinable := false }, service_stopped := true } :=
  ⟨rfl, rfl, rfl, rfl⟩

end RayPoller
